import Mathlib

set_option maxHeartbeats 1000000

/-!
Shallow embedding of `wg-allowedips` (main.go) and verification of its
specification.

Strings are modelled as lists of characters.  Go manipulates strings byte by
byte, but every separator and every character class used by the program is
ASCII, and on valid UTF-8 input byte-level splitting on an ASCII separator and
byte-lexicographic comparison coincide exactly with the character-level
operations used here, so the embedding is faithful on all valid UTF-8 inputs.

The external `dig` process is modelled as a function from hostname to either
an execution error or the raw standard output of the command; the input files
are modelled as lists of lines (the `bufio.Scanner` line splitting).
-/

/-- Strings, modelled as lists of characters (see the header comment). -/
abbrev Str := List Char

/-- Convert a Lean string literal to the character-list representation. -/
def str (s : String) : Str := s.data

/-- Models Go `unicode.IsSpace`: the Unicode White_Space property
(code points 0x09-0x0D, 0x20, 0x85, 0xA0, 0x1680, 0x2000-0x200A,
0x2028, 0x2029, 0x202F, 0x205F, 0x3000). -/
def goIsSpace (c : Char) : Bool :=
  c.toNat == 9 || c.toNat == 10 || c.toNat == 11 || c.toNat == 12 ||
  c.toNat == 13 || c.toNat == 32 || c.toNat == 0x85 || c.toNat == 0xA0 ||
  c.toNat == 0x1680 || (0x2000 ≤ c.toNat && c.toNat ≤ 0x200A) ||
  c.toNat == 0x2028 || c.toNat == 0x2029 || c.toNat == 0x202F ||
  c.toNat == 0x205F || c.toNat == 0x3000

/-- Models Go `strings.TrimSpace`. -/
def trimSpace (s : Str) : Str :=
  ((s.dropWhile goIsSpace).reverse.dropWhile goIsSpace).reverse

/-- Models Go `strings.HasPrefix s pre`. -/
def hasPrefixGo : Str → Str → Bool
  | _, [] => true
  | [], _ :: _ => false
  | c :: s, p :: ps => c == p && hasPrefixGo s ps

/-- Models Go `strings.Split` with a one-character separator (`"."`, `"\n"`):
the result is the list of (possibly empty) chunks between separators and is
never empty. -/
def splitOnChar (sep : Char) : Str → List Str
  | [] => [[]]
  | c :: rest =>
    if c == sep then [] :: splitOnChar sep rest
    else
      match splitOnChar sep rest with
      | [] => [[c]]
      | p :: ps => (c :: p) :: ps

/-- Models Go `strings.Join` with a one-character separator. -/
def joinWith (sep : Char) : List Str → Str
  | [] => []
  | [x] => x
  | x :: y :: rest => x ++ sep :: joinWith sep (y :: rest)

/-- ASCII decimal digit ('0'-'9'), as tested byte-wise by Go. -/
def isDigitGo (c : Char) : Bool := '0'.toNat ≤ c.toNat && c.toNat ≤ '9'.toNat

/-- Numeric value of an ASCII decimal digit. -/
def digitVal (c : Char) : Nat := c.toNat - '0'.toNat

/-- Models the field-scanning loop of Go `netip.parseIPv4Fields` (the IPv4
parser behind `net.ParseIP`): `val` and `digLen` are the running value and
digit count of the current field, `fields` the completed fields.  A field with
a leading zero, a field value above 255, an empty field, a trailing dot, more
than four fields, or a non-digit non-dot character is an error (`none`). -/
def v4loop : Str → Nat → Nat → List Nat → Option (List Nat)
  | [], val, _, fields =>
    if fields.length < 3 then none else some (fields ++ [val])
  | c :: rest, val, digLen, fields =>
    if isDigitGo c then
      if digLen == 1 && val == 0 then none
      else
        let val2 := val * 10 + digitVal c
        if 255 < val2 then none
        else v4loop rest val2 (digLen + 1) fields
    else if c == '.' then
      if digLen == 0 || rest.isEmpty then none
      else if fields.length == 3 then none
      else v4loop rest 0 0 (fields ++ [val])
    else none

/-- Models Go `netip.parseIPv4` (reached by `net.ParseIP` when the first
special character of the input is a dot): the four octet values, or `none`. -/
def parseIPv4Go (s : Str) : Option (List Nat) := v4loop s 0 0 []

/-- ASCII hex digit, as accepted by the Go `netip.parseIPv6` field scan. -/
def isHexDigitGo (c : Char) : Bool :=
  isDigitGo c || ('a'.toNat ≤ c.toNat && c.toNat ≤ 'f'.toNat) ||
  ('A'.toNat ≤ c.toNat && c.toNat ≤ 'F'.toNat)

/-- Numeric value of an ASCII hex digit. -/
def hexVal (c : Char) : Nat :=
  if isDigitGo c then c.toNat - '0'.toNat
  else if 'a'.toNat ≤ c.toNat && c.toNat ≤ 'f'.toNat then c.toNat - 'a'.toNat + 10
  else c.toNat - 'A'.toNat + 10

/-- Models the inline hex-field scan of Go `netip.parseIPv6`: consume leading
hex digits into an accumulator, failing (`none`) if the value reaches 2^16;
returns the accumulator, the number of digits consumed, and the rest. -/
def hexScan : Str → Nat → Nat → Option (Nat × Nat × Str)
  | [], acc, n => some (acc, n, [])
  | c :: rest, acc, n =>
    if isHexDigitGo c then
      let acc2 := acc * 16 + hexVal c
      if 65535 < acc2 then none else hexScan rest acc2 (n + 1)
    else some (acc, n, c :: rest)

/-- Models the main loop of Go `netip.parseIPv6`.  `ip` holds the bytes
written so far (the loop index `i` of the Go code is `ip.length`), `ell` the
position of a `::` if one was seen.  Each iteration writes at least two
bytes and the loop stops at 16, so fuel 8 is never exhausted.  Returns the
remaining input, the bytes, and the `::` position, or `none` on a parse
error. -/
def v6loop : Nat → Str → List Nat → Option Nat → Option (Str × List Nat × Option Nat)
  | 0, s, ip, ell => if 16 ≤ ip.length then some (s, ip, ell) else none
  | fuel + 1, s, ip, ell =>
    if 16 ≤ ip.length then some (s, ip, ell)
    else
      match hexScan s 0 0 with
      | none => none
      | some (acc, off, rest) =>
        if off == 0 then none
        else if rest.head? == some '.' then
          -- embedded IPv4: must sit in the final 4 bytes unless a :: was seen
          if ell.isNone && ip.length != 12 then none
          else if 16 < ip.length + 4 then none
          else
            match parseIPv4Go s with
            | none => none
            | some quad => some ([], ip ++ quad, ell)
        else
          let ip2 := ip ++ [acc / 256, acc % 256]
          match rest with
          | [] => some ([], ip2, ell)
          | c :: rest2 =>
            if c != ':' then none
            else
              match rest2 with
              | [] => none
              | c2 :: rest3 =>
                if c2 == ':' then
                  if ell.isSome then none
                  else
                    match rest3 with
                    | [] => some ([], ip2, some ip2.length)
                    | _ :: _ => v6loop fuel rest3 ip2 (some ip2.length)
                else v6loop fuel rest2 ip2 ell

/-- Post-loop processing of Go `netip.parseIPv6`: the input must be fully
consumed; a short address is completed by expanding the `::` with zero bytes;
a full address must not also contain a `::`. -/
def v6post : Option (Str × List Nat × Option Nat) → Option (List Nat)
  | none => none
  | some (s, ip, ell) =>
    if s ≠ [] then none
    else if ip.length < 16 then
      match ell with
      | none => none
      | some e => some (ip.take e ++ List.replicate (16 - ip.length) 0 ++ ip.drop e)
    else if ell.isSome then none
    else some ip

/-- Models Go `netip.parseIPv6` (reached by `net.ParseIP` when the first
special character is a colon), on inputs without a `%` zone (the caller
`goIsIPv4` rejects zones, as `net.ParseIP` does): the 16 address bytes. -/
def parseIPv6Go (s : Str) : Option (List Nat) :=
  if s.take 2 = [':', ':'] then
    if s.drop 2 = [] then some (List.replicate 16 0)
    else v6post (v6loop 8 (s.drop 2) [] (some 0))
  else v6post (v6loop 8 s [] none)

/-- Models the dispatch scan of Go `netip.ParseAddr`: the first character
among `.`, `:`, `%` decides the parse (dot: IPv4, colon: IPv6, percent or no
special character: error). -/
def dispatchIP : Str → Option Char
  | [] => none
  | c :: rest =>
    if c == '.' || c == ':' || c == '%' then some c else dispatchIP rest

/-- Models `net.ParseIP(s) != nil && net.ParseIP(s).To4() != nil`:
an IPv4 dotted quad, or an IPv6 literal denoting an IPv4-mapped address
(16 bytes `0,...,0,0xff,0xff,a,b,c,d`).  A `%` zone suffix always yields
`nil` from `net.ParseIP` (an empty zone is a parse error, a non-empty zone is
rejected after parsing), so any input containing `%` is rejected here. -/
def goIsIPv4 (s : Str) : Bool :=
  match dispatchIP s with
  | some '.' => (parseIPv4Go s).isSome
  | some ':' =>
    if s.contains '%' then false
    else
      match parseIPv6Go s with
      | none => false
      | some ip => ip.take 12 == List.replicate 10 0 ++ [255, 255]
  | _ => false

/-- Translates `isValidIPv4` from main.go lines 42-58: the Go address parse
(`net.ParseIP`/`To4`), then the explicit split into exactly four dot-separated
parts, none of which may have length greater than 1 and start with `0`. -/
def isValidIPv4 (s : Str) : Bool :=
  if !goIsIPv4 s then false
  else
    let parts := splitOnChar '.' s
    if parts.length != 4 then false
    else parts.all fun part => !(decide (1 < part.length) && part.head? == some '0')

/-- ASCII alphanumeric character, as matched by the character classes of the
label regular expression in main.go. -/
def isAlnumGo (c : Char) : Bool :=
  isDigitGo c || ('a'.toNat ≤ c.toNat && c.toNat ≤ 'z'.toNat) ||
  ('A'.toNat ≤ c.toNat && c.toNat ≤ 'Z'.toNat)

/-- Models the label regular expression of main.go line 72
(two alternatives: a single alphanumeric character, or an alphanumeric
character, then alphanumerics and hyphens, ending in an alphanumeric):
equivalently, a nonempty string of alphanumerics and hyphens whose first and
last characters are alphanumeric. -/
def labelMatch : Str → Bool
  | [] => false
  | c :: rest =>
    isAlnumGo c &&
    (match rest.getLast? with
     | none => true
     | some d => isAlnumGo d && rest.all fun x => isAlnumGo x || x == '-')

/-- Translates `isValidHostname` from main.go lines 61-84.  Go measures the
253- and 63-character limits in bytes; every string this function accepts is
pure ASCII (the label pattern admits only ASCII), so character counts agree
with byte counts on all accepted strings, and on valid UTF-8 input the
character count never exceeds the byte count, so the limits also reject the
same inputs. -/
def isValidHostname (s : Str) : Bool :=
  if s.length == 0 || decide (253 < s.length) then false
  else if !(s.contains '.') then false
  else (splitOnChar '.' s).all fun label =>
    !(label.length == 0) && decide (label.length ≤ 63) && labelMatch label

/-- Translates the output-filtering loop of `resolveHostname`
(main.go lines 94-105): trim each line, skip blank lines, keep the lines
accepted by `net.ParseIP`/`To4`. -/
def keepV4Lines : List Str → List Str
  | [] => []
  | l :: ls =>
    let t := trimSpace l
    if t = [] then keepV4Lines ls
    else if goIsIPv4 t then t :: keepV4Lines ls
    else keepV4Lines ls

/-- The pure part of `resolveHostname` from main.go lines 87-107: split the
trimmed `dig` output on newlines and filter. -/
def resolveOutputIPs (output : Str) : List Str :=
  keepV4Lines (splitOnChar '\n' (trimSpace output))

/-- Translates `resolveHostname` from main.go lines 87-107.  The external
`dig +short hostname` invocation is modelled by the function `dig` mapping a
hostname to either an execution error (`cmd.Output()` failing) or the raw
standard output of the command. -/
def resolveHostname (dig : Str → Except Str Str) (hostname : Str) :
    Except Str (List Str) :=
  match dig hostname with
  | .error e => .error e
  | .ok output => .ok (resolveOutputIPs output)

/-- Translates `removeDuplicates` from main.go lines 110-120; the `seen` map
becomes the list of strings already seen. -/
def removeDupAux : List Str → List Str → List Str
  | [], _ => []
  | x :: xs, seen =>
    if x ∈ seen then removeDupAux xs seen
    else x :: removeDupAux xs (x :: seen)

/-- `removeDuplicates` from main.go: keep the first occurrence of each
string. -/
def removeDuplicates (l : List Str) : List Str := removeDupAux l []

/-- Go string comparison (`<=` on strings, used by `sort.Strings`):
byte-lexicographic, which on valid UTF-8 coincides with lexicographic
comparison of the character code points. -/
def strLeB : Str → Str → Bool
  | [], _ => true
  | _ :: _, [] => false
  | a :: as, b :: bs =>
    if a.toNat < b.toNat then true
    else if b.toNat < a.toNat then false
    else strLeB as bs

/-- The ordering relation of `sort.Strings` as a proposition. -/
def strLeP (a b : Str) : Prop := strLeB a b = true

instance : DecidableRel strLeP := fun a b => instDecidableEqBool (strLeB a b) true

/-- Models `sort.Strings` from main.go line 188: sort ascending by Go string
comparison (the Go implementation is an unstable in-place sort; its result on
any input is the unique sorted permutation up to equal elements, which
insertion sort also produces). -/
def sortStrings (l : List Str) : List Str := List.insertionSort strLeP l

/-- The finalization of main.go lines 186-190: deduplicate, sort, and join
with commas. -/
def allowedIPsValue (allIPs : List Str) : Str :=
  joinWith ',' (sortStrings (removeDuplicates allIPs))

/-- The three outcomes of the entry classification chain at
main.go lines 163-179. -/
inductive Classification
  | literalAddress
  | domainName
  | invalid
deriving DecidableEq, Repr

/-- The classification performed by the if-chain of main.go lines 163-179:
`isValidIPv4` is tried first, then `isValidHostname`. -/
def classify (line : Str) : Classification :=
  if isValidIPv4 line then .literalAddress
  else if isValidHostname line then .domainName
  else .invalid

/-- The warnings emitted at main.go lines 169 and 173, with their payloads
(line number, hostname, and, for a resolution failure, the underlying
error). -/
inductive Warn
  | resolveFailed (lineNum : Nat) (hostname : Str) (err : Str)
  | noResults (lineNum : Nat) (hostname : Str)
deriving DecidableEq, Repr

/-- A raw line that survives the blank- and comment-skipping of
main.go lines 151-161 and is therefore classified. -/
def isEntryLine (raw : Str) : Bool :=
  !(trimSpace raw).isEmpty && !hasPrefixGo (trimSpace raw) (str "#")

/-- Translates the scanning loop of main.go lines 149-180.  `n` is the number
of lines already consumed, so the current line number is `n + 1`.  The result
is the list of warnings emitted, together with either the fatal error of
`errorExit` at line 178 (line number and offending trimmed text) or the
accumulated address list.  The branch structure is exactly the if-chain of
the source (`classify` is that chain by definition). -/
def scanLines (dig : Str → Except Str Str) : List Str → Nat →
    List Warn × Except (Nat × Str) (List Str)
  | [], _ => ([], .ok [])
  | raw :: rest, n =>
    let ln := n + 1
    let line := trimSpace raw
    if line = [] then scanLines dig rest ln
    else if hasPrefixGo line (str "#") then scanLines dig rest ln
    else
      match classify line with
      | .literalAddress =>
        let p := scanLines dig rest ln
        (p.1, p.2.map fun ips => line :: ips)
      | .domainName =>
        match resolveHostname dig line with
        | .error e =>
          let p := scanLines dig rest ln
          (.resolveFailed ln line e :: p.1, p.2)
        | .ok resolvedIPs =>
          if resolvedIPs = [] then
            let p := scanLines dig rest ln
            (.noResults ln line :: p.1, p.2)
          else
            let p := scanLines dig rest ln
            (p.1, p.2.map fun ips => resolvedIPs ++ ips)
      | .invalid => ([], .error (ln, line))

/-- The observable outcome of a run: exit code, standard output, and the
warnings written to standard error. -/
structure RunOut where
  exitCode : Nat
  stdout : Str
  warns : List Warn
deriving DecidableEq, Repr

/-- List mode (main.go lines 193-197): on a fatal scan error, exit 1 with no
standard output; otherwise print the joined value followed by a newline, but
only when the deduplicated list is nonempty. -/
def runList (dig : Str → Except Str Str) (allowedLines : List Str) : RunOut :=
  match scanLines dig allowedLines 0 with
  | (ws, .error _) => ⟨1, [], ws⟩
  | (ws, .ok ips) =>
    let final := sortStrings (removeDuplicates ips)
    ⟨0, if 0 < final.length then joinWith ',' final ++ ['\n'] else [], ws⟩

/-- One line of substitution-mode output (main.go lines 208-214): a line
whose trimmed form starts with `AllowedIPs` is replaced, any other line is
emitted as its original untrimmed text. -/
def substLine (value : Str) (l : Str) : Str :=
  if hasPrefixGo (trimSpace l) (str "AllowedIPs") then str "AllowedIPs = " ++ value
  else l

/-- The lines emitted in substitution mode. -/
def substLines (value : Str) (wg : List Str) : List Str := wg.map (substLine value)

/-- Substitution-mode standard output: each emitted line followed by a
newline (`fmt.Printf "...\n"` and `fmt.Println`). -/
def substOutput (value : Str) (wg : List Str) : Str :=
  (substLines value wg).foldr (fun l acc => l ++ '\n' :: acc) []

/-- Substitution mode (main.go lines 198-220). -/
def runSubst (dig : Str → Except Str Str) (allowedLines wg : List Str) : RunOut :=
  match scanLines dig allowedLines 0 with
  | (ws, .error _) => ⟨1, [], ws⟩
  | (ws, .ok ips) =>
    ⟨0, substOutput (joinWith ',' (sortStrings (removeDuplicates ips))) wg, ws⟩

/-- Running value of a string of decimal digits (used to state the
specification's notion of a 0-255 segment). -/
def pushDigits (val : Nat) (p : Str) : Nat :=
  p.foldl (fun v c => v * 10 + digitVal c) val

/-- Decimal value of a digit string. -/
def decValList (p : Str) : Nat := pushDigits 0 p

/-- Spec-side definition (from the words of the specification): a segment
that is "a decimal integer 0-255" with "no segment of length greater than 1
starting with 0". -/
def isDecSeg (p : Str) : Bool :=
  !p.isEmpty && p.all isDigitGo && decide (decValList p ≤ 255) &&
  !(decide (1 < p.length) && p.head? == some '0')

/-- Spec-side definition (from the words of the specification): the line
"parses as exactly four dot-separated segments, each a decimal integer
0-255, with no segment of length greater than 1 starting with '0'".  To be
compared with the code-side `isValidIPv4`. -/
def isDottedQuadSpec (s : Str) : Bool :=
  (splitOnChar '.' s).length == 4 && (splitOnChar '.' s).all isDecSeg

/-- A `dig` model whose invocation always fails to execute. -/
def digFails : Str → Except Str Str := fun _ => .error (str "exec failure")

/-- A `dig` model that always succeeds and answers with a CNAME line only. -/
def digCNAMEOnly : Str → Except Str Str := fun _ => .ok (str "cname.example.com.")


/-! ### Helper lemmas -/

theorem strLeB_total : ∀ a b : Str, strLeB a b = true ∨ strLeB b a = true := by
  intro a
  induction a with
  | nil => intro b; left; rfl
  | cons x xs ih =>
    intro b
    cases b with
    | nil => right; rfl
    | cons y ys =>
      simp only [strLeB]
      rcases Nat.lt_trichotomy x.toNat y.toNat with h | h | h
      · left; simp [h]
      · have h2 : ¬x.toNat < y.toNat := by omega
        have h3 : ¬y.toNat < x.toNat := by omega
        simp only [h2, h3, if_false]
        exact ih ys
      · right; simp [h]

theorem strLeB_trans : ∀ a b c : Str, strLeB a b = true → strLeB b c = true →
    strLeB a c = true := by
  intro a
  induction a with
  | nil => intro b c _ _; rfl
  | cons x xs ih =>
    intro b c hab hbc
    cases b with
    | nil => simp [strLeB] at hab
    | cons y ys =>
      cases c with
      | nil => simp [strLeB] at hbc
      | cons z zs =>
        simp only [strLeB] at hab hbc ⊢
        rcases Nat.lt_trichotomy x.toNat z.toNat with h | h | h
        · simp [h]
        · have h2 : ¬x.toNat < z.toNat := by omega
          have h3 : ¬z.toNat < x.toNat := by omega
          simp only [h2, h3, if_false]
          by_cases hxy : x.toNat < y.toNat
          · by_cases hyz : y.toNat < z.toNat
            · omega
            · simp only [if_neg (by omega : ¬y.toNat < z.toNat)] at hbc
              by_cases hzy : z.toNat < y.toNat
              · simp [hzy] at hbc
              · omega
          · simp only [if_neg hxy] at hab
            by_cases hyx : y.toNat < x.toNat
            · simp [hyx] at hab
            · have hyx2 : y.toNat = x.toNat := by omega
              simp only [if_neg hyx] at hab
              by_cases hyz : y.toNat < z.toNat
              · omega
              · simp only [if_neg hyz] at hbc
                by_cases hzy : z.toNat < y.toNat
                · simp [hzy] at hbc
                · simp only [if_neg hzy] at hbc
                  exact ih ys zs hab hbc
        · -- x > z: show a contradiction with the hypotheses
          exfalso
          by_cases hxy : x.toNat < y.toNat
          · by_cases hyz : y.toNat < z.toNat
            · omega
            · simp only [if_neg hyz] at hbc
              by_cases hzy : z.toNat < y.toNat
              · simp [hzy] at hbc
              · omega
          · simp only [if_neg hxy] at hab
            by_cases hyx : y.toNat < x.toNat
            · simp [hyx] at hab
            · by_cases hyz : y.toNat < z.toNat
              · omega
              · simp only [if_neg hyz] at hbc
                by_cases hzy : z.toNat < y.toNat
                · simp [hzy] at hbc
                · omega

instance : IsTotal Str strLeP := ⟨strLeB_total⟩

instance : IsTrans Str strLeP := ⟨strLeB_trans⟩

theorem removeDupAux_mem : ∀ (l seen : List Str) (x : Str),
    x ∈ removeDupAux l seen ↔ x ∈ l ∧ x ∉ seen := by
  intro l
  induction l with
  | nil => intro seen x; simp [removeDupAux]
  | cons y ys ih =>
    intro seen x
    by_cases hy : y ∈ seen
    · rw [removeDupAux, if_pos hy, ih]
      constructor
      · rintro ⟨hx, hxs⟩; exact ⟨List.mem_cons_of_mem _ hx, hxs⟩
      · rintro ⟨hx, hxs⟩
        rcases List.mem_cons.mp hx with rfl | hx
        · exact absurd hy hxs
        · exact ⟨hx, hxs⟩
    · rw [removeDupAux, if_neg hy]
      constructor
      · intro hx
        rcases List.mem_cons.mp hx with rfl | hx
        · exact ⟨List.mem_cons_self _ _, hy⟩
        · rcases (ih _ _).mp hx with ⟨h1, h2⟩
          refine ⟨List.mem_cons_of_mem _ h1, fun hc => h2 (List.mem_cons_of_mem _ hc)⟩
      · rintro ⟨hx, hxs⟩
        rcases List.mem_cons.mp hx with rfl | hx
        · exact List.mem_cons_self _ _
        · by_cases hxy : x = y
          · subst hxy; exact List.mem_cons_self _ _
          · exact List.mem_cons_of_mem _ ((ih _ _).mpr
              ⟨hx, by simp [List.mem_cons, hxy, hxs]⟩)

theorem removeDupAux_nodup : ∀ (l seen : List Str), (removeDupAux l seen).Nodup := by
  intro l
  induction l with
  | nil => intro seen; simp [removeDupAux]
  | cons y ys ih =>
    intro seen
    by_cases hy : y ∈ seen
    · rw [removeDupAux, if_pos hy]; exact ih seen
    · rw [removeDupAux, if_neg hy]
      refine List.nodup_cons.mpr ⟨fun hc => ?_, ih _⟩
      exact ((removeDupAux_mem _ _ _).mp hc).2 (List.mem_cons_self _ _)

theorem removeDuplicates_mem (l : List Str) (x : Str) :
    x ∈ removeDuplicates l ↔ x ∈ l := by
  rw [removeDuplicates, removeDupAux_mem]; simp

theorem removeDuplicates_nodup (l : List Str) : (removeDuplicates l).Nodup :=
  removeDupAux_nodup l []

theorem sortStrings_perm (l : List Str) : List.Perm (sortStrings l) l :=
  List.perm_insertionSort strLeP l

theorem sortStrings_sorted (l : List Str) : List.Sorted strLeP (sortStrings l) :=
  List.sorted_insertionSort strLeP l

theorem charToNat_inj {a b : Char} (h : a.toNat = b.toNat) : a = b :=
  Char.ext (UInt32.ext h)

theorem pushDigits_cons (val : Nat) (c : Char) (p : Str) :
    pushDigits val (c :: p) = pushDigits (val * 10 + digitVal c) p := rfl

theorem pushDigits_le (p : Str) : ∀ val : Nat, val ≤ pushDigits val p := by
  induction p with
  | nil => intro val; exact Nat.le_refl val
  | cons c q ih =>
    intro val
    rw [pushDigits_cons]
    exact Nat.le_trans (by omega) (ih (val * 10 + digitVal c))

theorem digitVal_le_nine {c : Char} (hc : isDigitGo c = true) : digitVal c ≤ 9 := by
  have h0 : ('0' : Char).toNat = 48 := rfl
  have h9 : ('9' : Char).toNat = 57 := rfl
  simp only [isDigitGo, Bool.and_eq_true, decide_eq_true_eq] at hc
  simp only [digitVal]
  omega

theorem digitVal_ne_zero {c : Char} (hc : isDigitGo c = true) (hne : c ≠ '0') :
    digitVal c ≠ 0 := by
  have h0 : ('0' : Char).toNat = 48 := rfl
  have h9 : ('9' : Char).toNat = 57 := rfl
  simp only [isDigitGo, Bool.and_eq_true, decide_eq_true_eq] at hc
  have : c.toNat ≠ 48 := fun h48 => hne (charToNat_inj (by omega))
  simp only [digitVal]
  omega

theorem v4loop_digits : ∀ (q : Str) (rest : Str) (val digLen : Nat) (fields : List Nat),
    q.all isDigitGo = true → 1 ≤ digLen → ¬(digLen = 1 ∧ val = 0) →
    pushDigits val q ≤ 255 →
    v4loop (q ++ rest) val digLen fields =
      v4loop rest (pushDigits val q) (digLen + q.length) fields := by
  intro q
  induction q with
  | nil => intro rest val digLen fields _ _ _ _; simp [pushDigits]
  | cons c q ih =>
    intro rest val digLen fields hall hd hnz hle
    rw [List.all_cons, Bool.and_eq_true] at hall
    obtain ⟨hc, hq⟩ := hall
    rw [pushDigits_cons] at hle
    have hguard : (digLen == 1 && val == 0) = false := by
      rcases eq_or_ne digLen 1 with h1 | h1
      · have hv : val ≠ 0 := fun hv => hnz ⟨h1, hv⟩
        simp [h1, hv]
      · simp [h1]
    have hof : ¬(255 < val * 10 + digitVal c) := by
      have := pushDigits_le q (val * 10 + digitVal c)
      omega
    rw [List.cons_append, v4loop, if_pos hc, if_neg (by simp [hguard]), if_neg hof]
    rw [ih rest (val * 10 + digitVal c) (digLen + 1) fields hq (by omega)
      (by omega) hle]
    rw [pushDigits_cons]
    congr 1
    simp [List.length_cons]
    omega

theorem isDecSeg_parts {p : Str} (h : isDecSeg p = true) :
    p ≠ [] ∧ p.all isDigitGo = true ∧ decValList p ≤ 255 ∧
      ¬(1 < p.length ∧ p.head? = some '0') := by
  unfold isDecSeg at h
  rw [Bool.and_eq_true, Bool.and_eq_true, Bool.and_eq_true] at h
  obtain ⟨⟨⟨h1, h2⟩, h3⟩, h4⟩ := h
  refine ⟨?_, h2, by simpa using h3, ?_⟩
  · intro hp; subst hp; simp at h1
  · rintro ⟨hl, hh⟩
    rw [Bool.not_eq_true'] at h4
    rw [Bool.and_eq_false_iff] at h4
    rcases h4 with h4 | h4
    · rw [decide_eq_false_iff_not] at h4; exact h4 hl
    · rw [beq_eq_false_iff_ne] at h4; exact h4 hh

theorem v4loop_seg (p rest : Str) (fields : List Nat) (hp : isDecSeg p = true) :
    v4loop (p ++ rest) 0 0 fields = v4loop rest (decValList p) p.length fields := by
  obtain ⟨hne, hall, hle, hlz⟩ := isDecSeg_parts hp
  cases p with
  | nil => exact absurd rfl hne
  | cons c q =>
    rw [List.all_cons, Bool.and_eq_true] at hall
    obtain ⟨hc, hq⟩ := hall
    have hval : 0 * 10 + digitVal c = digitVal c := by omega
    have hveq : decValList (c :: q) = pushDigits (digitVal c) q := by
      rw [decValList, pushDigits_cons, hval]
    rw [List.cons_append, v4loop, if_pos hc, if_neg (by simp),
      if_neg (by have := digitVal_le_nine hc; omega : ¬(255 < 0 * 10 + digitVal c))]
    rw [hval]
    cases q with
    | nil => rw [hveq]; simp [pushDigits]
    | cons d q2 =>
      have hcne : c ≠ '0' := by
        intro hcc
        exact hlz ⟨by simp, by rw [hcc]; rfl⟩
      rw [v4loop_digits (d :: q2) rest (digitVal c) 1 fields hq (Nat.le_refl 1)
        (fun hx => digitVal_ne_zero hc hcne hx.2) (by rw [← hveq]; exact hle)]
      rw [hveq]
      congr 1
      simp [List.length_cons]
      omega

theorem v4step (p t : Str) (fields : List Nat) (hp : isDecSeg p = true)
    (ht : t ≠ []) (hf : fields.length < 3) :
    v4loop (p ++ '.' :: t) 0 0 fields = v4loop t 0 0 (fields ++ [decValList p]) := by
  obtain ⟨hne, _, _, _⟩ := isDecSeg_parts hp
  rw [v4loop_seg p ('.' :: t) fields hp]
  have hlen : p.length ≠ 0 := fun h => hne (List.length_eq_zero.mp h)
  have hd : isDigitGo '.' = false := by decide
  rw [v4loop, hd, if_neg (by simp), if_pos (by simp), if_neg ?hc1, if_neg ?hc2]
  case hc1 =>
    simp only [Bool.or_eq_true, beq_iff_eq, List.isEmpty_eq_true]
    rintro (h | h)
    · exact hlen h
    · exact ht h
  case hc2 =>
    simp only [beq_iff_eq]
    omega

theorem v4loop_seg_nil (p : Str) (fields : List Nat) (hp : isDecSeg p = true) :
    v4loop p 0 0 fields = v4loop [] (decValList p) p.length fields := by
  have h := v4loop_seg p [] fields hp
  rwa [List.append_nil] at h

theorem v4quad (p1 p2 p3 p4 : Str) (h1 : isDecSeg p1 = true) (h2 : isDecSeg p2 = true)
    (h3 : isDecSeg p3 = true) (h4 : isDecSeg p4 = true) :
    parseIPv4Go (p1 ++ '.' :: (p2 ++ '.' :: (p3 ++ '.' :: p4))) =
      some [decValList p1, decValList p2, decValList p3, decValList p4] := by
  obtain ⟨hne4, _, _, _⟩ := isDecSeg_parts h4
  rw [parseIPv4Go]
  rw [v4step p1 (p2 ++ '.' :: (p3 ++ '.' :: p4)) [] h1 (by simp) (by simp)]
  simp only [List.nil_append]
  rw [v4step p2 (p3 ++ '.' :: p4) [decValList p1] h2 (by simp) (by simp)]
  simp only [List.cons_append, List.nil_append]
  rw [v4step p3 p4 [decValList p1, decValList p2] h3 hne4 (by simp)]
  simp only [List.cons_append, List.nil_append]
  rw [v4loop_seg_nil p4 [decValList p1, decValList p2, decValList p3] h4]
  rw [v4loop]
  simp

theorem splitOnChar_ne_nil (sep : Char) (s : Str) : splitOnChar sep s ≠ [] := by
  cases s with
  | nil => simp [splitOnChar]
  | cons c rest =>
    rw [splitOnChar]
    by_cases h : (c == sep) = true
    · simp [h]
    · rw [if_neg (by simp [h])]
      cases hs : splitOnChar sep rest <;> simp

theorem joinWith_splitOnChar (sep : Char) : ∀ s : Str,
    joinWith sep (splitOnChar sep s) = s := by
  intro s
  induction s with
  | nil => rfl
  | cons c rest ih =>
    rw [splitOnChar]
    obtain ⟨p, ps, hps⟩ : ∃ p ps, splitOnChar sep rest = p :: ps := by
      cases hs : splitOnChar sep rest with
      | nil => exact absurd hs (splitOnChar_ne_nil sep rest)
      | cons p ps => exact ⟨p, ps, rfl⟩
    rw [hps] at ih
    by_cases h : (c == sep) = true
    · have hc : c = sep := by simpa using h
      rw [if_pos h, hps]
      show joinWith sep ([] :: p :: ps) = c :: rest
      rw [joinWith, List.nil_append, hc, ih]
    · rw [if_neg (by simp [h]), hps]
      cases ps with
      | nil =>
        show joinWith sep [c :: p] = c :: rest
        rw [joinWith] at ih ⊢
        rw [ih]
      | cons q qs =>
        show joinWith sep ((c :: p) :: q :: qs) = c :: rest
        rw [joinWith] at ih ⊢
        rw [List.cons_append, ih]

theorem dispatchIP_digits (p t : Str) (hp : p.all isDigitGo = true) :
    dispatchIP (p ++ '.' :: t) = some '.' := by
  induction p with
  | nil => simp [dispatchIP]
  | cons c q ih =>
    rw [List.all_cons, Bool.and_eq_true] at hp
    obtain ⟨hc, hq⟩ := hp
    have h1 : c ≠ '.' := fun h => by rw [h] at hc; exact absurd hc (by decide)
    have h2 : c ≠ ':' := fun h => by rw [h] at hc; exact absurd hc (by decide)
    have h3 : c ≠ '%' := fun h => by rw [h] at hc; exact absurd hc (by decide)
    rw [List.cons_append, dispatchIP, if_neg (by simp [h1, h2, h3])]
    exact ih hq

theorem dottedQuad_parse (s : Str) (h : isDottedQuadSpec s = true) :
    ∃ p1 p2 p3 p4 : Str,
      splitOnChar '.' s = [p1, p2, p3, p4] ∧
      isDecSeg p1 = true ∧ isDecSeg p2 = true ∧ isDecSeg p3 = true ∧
      isDecSeg p4 = true ∧
      s = p1 ++ '.' :: (p2 ++ '.' :: (p3 ++ '.' :: p4)) := by
  rw [isDottedQuadSpec, Bool.and_eq_true] at h
  obtain ⟨hlen, hall⟩ := h
  rw [beq_iff_eq] at hlen
  have hjoin := joinWith_splitOnChar '.' s
  rcases hsp : splitOnChar '.' s with _ | ⟨p1, _ | ⟨p2, _ | ⟨p3, _ | ⟨p4, _ | ⟨p5, ps⟩⟩⟩⟩⟩ <;>
    rw [hsp] at hlen <;> simp at hlen
  rw [hsp] at hall hjoin
  simp only [List.all_cons, List.all_nil, Bool.and_eq_true] at hall
  refine ⟨p1, p2, p3, p4, rfl, hall.1, hall.2.1, hall.2.2.1, hall.2.2.2.1, ?_⟩
  rw [← hjoin]
  rfl

theorem dottedQuad_goIsIPv4 (s : Str) (h : isDottedQuadSpec s = true) :
    goIsIPv4 s = true := by
  obtain ⟨p1, p2, p3, p4, hsp, h1, h2, h3, h4, hs⟩ := dottedQuad_parse s h
  obtain ⟨_, hall1, _, _⟩ := isDecSeg_parts h1
  rw [goIsIPv4, hs, dispatchIP_digits p1 _ hall1]
  rw [v4quad p1 p2 p3 p4 h1 h2 h3 h4]
  rfl

theorem isDecSeg_noLeadZero {p : Str} (hp : isDecSeg p = true) :
    (!(decide (1 < p.length) && p.head? == some '0')) = true := by
  obtain ⟨_, _, _, hlz⟩ := isDecSeg_parts hp
  rw [Bool.not_eq_true', Bool.and_eq_false_iff]
  by_cases hl : 1 < p.length
  · right
    rw [beq_eq_false_iff_ne]
    exact fun hh => hlz ⟨hl, hh⟩
  · left
    rw [decide_eq_false_iff_not]
    exact hl

theorem dottedQuad_isValidIPv4 (s : Str) (h : isDottedQuadSpec s = true) :
    isValidIPv4 s = true := by
  have hgo := dottedQuad_goIsIPv4 s h
  obtain ⟨p1, p2, p3, p4, hsp, h1, h2, h3, h4, _⟩ := dottedQuad_parse s h
  rw [isValidIPv4, hgo]
  simp only [Bool.not_true, Bool.false_eq_true, if_false]
  rw [hsp]
  simp only [List.length_cons, List.length_nil]
  rw [if_neg (by simp)]
  simp only [List.all_cons, List.all_nil, Bool.and_eq_true]
  exact ⟨isDecSeg_noLeadZero h1, isDecSeg_noLeadZero h2, isDecSeg_noLeadZero h3,
    isDecSeg_noLeadZero h4, trivial⟩

theorem keepV4Lines_eq_filter : ∀ ls : List Str,
    keepV4Lines ls = (ls.map trimSpace).filter fun t => !t.isEmpty && goIsIPv4 t := by
  intro ls
  induction ls with
  | nil => rfl
  | cons l ls ih =>
    rw [List.map_cons, List.filter_cons, keepV4Lines]
    by_cases h : trimSpace l = []
    · rw [if_pos h, h]
      simp only [List.isEmpty_nil, Bool.not_true, Bool.false_and, Bool.false_eq_true,
        if_false]
      exact ih
    · have hne : (trimSpace l).isEmpty = false := by
        cases hl : trimSpace l with
        | nil => exact absurd hl h
        | cons a b => rfl
      rw [if_neg h]
      by_cases h2 : goIsIPv4 (trimSpace l) = true
      · rw [if_pos (by simp [h2]), if_pos (by simp [hne, h2]), ih]
      · have h2f : goIsIPv4 (trimSpace l) = false := by
          cases hgo : goIsIPv4 (trimSpace l) with
          | false => rfl
          | true => exact absurd hgo h2
        rw [if_neg (by simp [h2f]), if_neg (by simp [h2f]), ih]

theorem substLines_getD (value : Str) (wg : List Str) : ∀ i : Nat,
    (substLines value wg).getD i [] = substLine value (wg.getD i []) := by
  induction wg with
  | nil =>
    intro i
    cases i <;> rfl
  | cons w ws ih =>
    intro i
    cases i with
    | zero => rfl
    | succ j => exact ih j

theorem isEntryLine_false {raw : Str} (h : isEntryLine raw = false) :
    trimSpace raw = [] ∨ hasPrefixGo (trimSpace raw) (str "#") = true := by
  rw [isEntryLine, Bool.and_eq_false_iff] at h
  rcases h with h | h
  · left
    rw [Bool.not_eq_false'] at h
    exact List.isEmpty_iff.mp h
  · right
    rwa [Bool.not_eq_false'] at h

theorem isEntryLine_true {raw : Str} (h : isEntryLine raw = true) :
    trimSpace raw ≠ [] ∧ hasPrefixGo (trimSpace raw) (str "#") = false := by
  rw [isEntryLine, Bool.and_eq_true, Bool.not_eq_true', Bool.not_eq_true'] at h
  refine ⟨fun hc => ?_, h.2⟩
  rw [hc] at h
  simp at h

theorem scanLines_skip (dig : Str → Except Str Str) (raw : Str) (rest : List Str)
    (n : Nat) (h : trimSpace raw = [] ∨ hasPrefixGo (trimSpace raw) (str "#") = true) :
    scanLines dig (raw :: rest) n = scanLines dig rest (n + 1) := by
  rcases h with h | h
  · rw [scanLines, if_pos h]
  · by_cases h0 : trimSpace raw = []
    · rw [scanLines, if_pos h0]
    · rw [scanLines, if_neg h0, if_pos h]

theorem scanLines_cons_invalid (dig : Str → Except Str Str) (raw : Str)
    (rest : List Str) (n : Nat) (he : isEntryLine raw = true)
    (hc : classify (trimSpace raw) = Classification.invalid) :
    scanLines dig (raw :: rest) n = ([], .error (n + 1, trimSpace raw)) := by
  obtain ⟨h1, h2⟩ := isEntryLine_true he
  rw [scanLines, if_neg h1, if_neg (by simp [h2]), hc]

theorem scanLines_cons_error (dig : Str → Except Str Str) (raw : Str)
    (rest : List Str) (n : Nat) (e : Nat × Str)
    (hnc : classify (trimSpace raw) ≠ Classification.invalid)
    (hrec : (scanLines dig rest (n + 1)).2 = .error e) :
    (scanLines dig (raw :: rest) n).2 = .error e := by
  by_cases he : isEntryLine raw = true
  · obtain ⟨h1, h2⟩ := isEntryLine_true he
    rw [scanLines, if_neg h1, if_neg (by simp [h2])]
    cases hc : classify (trimSpace raw) with
    | literalAddress =>
      simp only
      rw [hrec]
      rfl
    | domainName =>
      simp only
      cases hdg : dig (trimSpace raw) with
      | error err => simpa [resolveHostname, hdg] using hrec
      | ok output =>
        by_cases hro : resolveOutputIPs output = []
        · simpa [resolveHostname, hdg, hro] using hrec
        · rw [resolveHostname, hdg]
          simp only [if_neg hro]
          rw [hrec]
          rfl
    | invalid => exact absurd hc hnc
  · have hf : isEntryLine raw = false := by
      cases hef : isEntryLine raw with
      | false => rfl
      | true => exact absurd hef he
    rw [scanLines_skip dig raw rest n (isEntryLine_false hf)]
    exact hrec

theorem scan_abort (dig : Str → Except Str Str) : ∀ (lines : List Str) (base : Nat),
    (∃ k, k < lines.length ∧ isEntryLine (lines.getD k []) = true ∧
      classify (trimSpace (lines.getD k [])) = Classification.invalid) →
    ∃ j, j < lines.length ∧ isEntryLine (lines.getD j []) = true ∧
      classify (trimSpace (lines.getD j [])) = Classification.invalid ∧
      (scanLines dig lines base).2 =
        .error (base + j + 1, trimSpace (lines.getD j [])) := by
  intro lines
  induction lines with
  | nil =>
    intro base h
    obtain ⟨k, hk, _⟩ := h
    simp at hk
  | cons raw rest ih =>
    intro base h
    by_cases hhead : isEntryLine raw = true ∧
        classify (trimSpace raw) = Classification.invalid
    · refine ⟨0, by simp, hhead.1, hhead.2, ?_⟩
      rw [scanLines_cons_invalid dig raw rest base hhead.1 hhead.2]
      rfl
    · obtain ⟨k, hk, hke, hkc⟩ := h
      have hk0 : k ≠ 0 := by
        intro h0
        subst h0
        exact hhead ⟨hke, hkc⟩
      obtain ⟨k2, rfl⟩ : ∃ k2, k = k2 + 1 := ⟨k - 1, by omega⟩
      have hrec := ih (base + 1)
        ⟨k2, Nat.lt_of_succ_lt_succ hk, hke, hkc⟩
      obtain ⟨j, hj, hje, hjc, hjs⟩ := hrec
      have harith : base + 1 + j + 1 = base + (j + 1) + 1 := by omega
      refine ⟨j + 1, by simpa using Nat.succ_lt_succ hj, hje, hjc, ?_⟩
      by_cases he : isEntryLine raw = true
      · have hnc : classify (trimSpace raw) ≠ Classification.invalid :=
          fun hc => hhead ⟨he, hc⟩
        have hce := scanLines_cons_error dig raw rest base _ hnc hjs
        rw [← harith]
        exact hce
      · have hf : isEntryLine raw = false := by
          cases hef : isEntryLine raw with
          | false => rfl
          | true => exact absurd hef he
        rw [scanLines_skip dig raw rest base (isEntryLine_false hf), ← harith]
        exact hjs

/-! ### Claim theorems -/

/-- Claim C1, amended: every line of the 4-dotted-decimal shape (exactly four
dot-separated decimal segments 0-255, no segment of length greater than 1
starting with '0') is classified LiteralAddress; the converse direction of
the claimed equivalence fails, because the Go address parser also accepts
textual IPv4-mapped IPv6 addresses such as `::ffff:1.2.3.4`, which split on
dots into four parts and pass the leading-zero check, so they are classified
LiteralAddress without being of the 4-dotted-decimal shape. -/
theorem wg_claim_C1 :
    (∀ s : Str, isDottedQuadSpec s = true →
      classify s = Classification.literalAddress) ∧
    classify (str "::ffff:1.2.3.4") = Classification.literalAddress ∧
    isDottedQuadSpec (str "::ffff:1.2.3.4") = false := by
  refine ⟨fun s h => ?_, by decide, by decide⟩
  rw [classify, if_pos (dottedQuad_isValidIPv4 s h)]

/-- Claim C1, counterexample to the claim as stated: the line
`::ffff:1.2.3.4` is classified LiteralAddress although it does not parse as
four dot-separated decimal segments, refuting the "only if" direction. -/
theorem wg_claim_C1_cex :
    isValidIPv4 (str "::ffff:1.2.3.4") = true ∧
    classify (str "::ffff:1.2.3.4") = Classification.literalAddress ∧
    isDottedQuadSpec (str "::ffff:1.2.3.4") = false := by
  refine ⟨by decide, by decide, by decide⟩

/-- Witness for C1: the amended theorem applied at `203.0.113.7`. -/
theorem wg_claim_C1_witness :
    classify (str "203.0.113.7") = Classification.literalAddress :=
  wg_claim_C1.1 (str "203.0.113.7") (by decide)

/-- Claim C2, amended: `01.2.3.4`, `1.2.3.4.5` and `1.2.3` are rejected by
`isValidIPv4` but accepted by `isValidHostname` (their labels are
alphanumeric), so each is classified DomainName, not Invalid; instead of a
fatal abort the program attempts DNS resolution for them, and a resolver
failure merely produces warnings while the scan succeeds. -/
theorem wg_claim_C2 :
    classify (str "01.2.3.4") = Classification.domainName ∧
    classify (str "1.2.3.4.5") = Classification.domainName ∧
    classify (str "1.2.3") = Classification.domainName ∧
    scanLines digFails [str "01.2.3.4", str "1.2.3.4.5", str "1.2.3"] 0 =
      ([Warn.resolveFailed 1 (str "01.2.3.4") (str "exec failure"),
        Warn.resolveFailed 2 (str "1.2.3.4.5") (str "exec failure"),
        Warn.resolveFailed 3 (str "1.2.3") (str "exec failure")], .ok []) := by
  refine ⟨by decide, by decide, by decide, by rfl⟩

/-- Claim C2, counterexample to the claim as stated: `01.2.3.4` is NOT
classified Invalid; it is classified DomainName (and the same holds for the
other two lines), so these lines do not abort the run as invalid entries. -/
theorem wg_claim_C2_cex :
    classify (str "01.2.3.4") ≠ Classification.invalid ∧
    classify (str "1.2.3.4.5") ≠ Classification.invalid ∧
    classify (str "1.2.3") ≠ Classification.invalid := by
  refine ⟨by decide, by decide, by decide⟩

/-- Claim C3: the final value is obtained by deduplicating under exact string
equality, sorting ascending in byte-lexicographic order (`strLeP`), and
joining with single commas; the empty collection joins to the empty string,
and the three sample literals produce exactly the stated output. -/
theorem wg_claim_C3 :
    (∀ l : List Str,
      allowedIPsValue l = joinWith ',' (sortStrings (removeDuplicates l)) ∧
      (sortStrings (removeDuplicates l)).Nodup ∧
      List.Sorted strLeP (sortStrings (removeDuplicates l)) ∧
      (∀ x, x ∈ sortStrings (removeDuplicates l) ↔ x ∈ l)) ∧
    allowedIPsValue [] = [] ∧
    allowedIPsValue [str "10.0.0.2", str "10.0.0.10", str "10.0.0.1"] =
      str "10.0.0.1,10.0.0.10,10.0.0.2" := by
  refine ⟨fun l => ⟨rfl, ?_, sortStrings_sorted _, fun x => ?_⟩, rfl, by decide⟩
  · exact (sortStrings_perm _).nodup_iff.mpr (removeDuplicates_nodup l)
  · rw [(sortStrings_perm _).mem_iff, removeDuplicates_mem]

/-- Claim C4, amended: the resolver keeps exactly the trimmed, nonblank
output lines accepted by the Go address parse (`net.ParseIP`/`To4`), which
is a strict superset of the 4-dotted-decimal shapes: every 4-dotted-decimal
line is kept and every non-parsing line (e.g. a CNAME) is silently
discarded, but textual IPv4-mapped IPv6 answers are kept as well; the result
may be empty. -/
theorem wg_claim_C4 :
    (∀ output : Str,
      resolveOutputIPs output =
        ((splitOnChar '\n' (trimSpace output)).map trimSpace).filter
          (fun t => !t.isEmpty && goIsIPv4 t) ∧
      ∀ l, l ∈ resolveOutputIPs output → goIsIPv4 l = true) ∧
    (∀ t : Str, isDottedQuadSpec t = true → goIsIPv4 t = true) ∧
    resolveOutputIPs (str "cname.example.com.") = [] := by
  refine ⟨fun output => ⟨keepV4Lines_eq_filter _, fun l hl => ?_⟩,
    fun t ht => dottedQuad_goIsIPv4 t ht, by rfl⟩
  rw [resolveOutputIPs, keepV4Lines_eq_filter] at hl
  have := List.of_mem_filter hl
  rw [Bool.and_eq_true] at this
  exact this.2

/-- Claim C4, counterexample to the claim as stated: the resolver output
line `::ffff:8.8.8.8` is kept although it does not parse as a
4-dotted-decimal address. -/
theorem wg_claim_C4_cex :
    resolveOutputIPs (str "::ffff:8.8.8.8\ncname.example.com.") =
      [str "::ffff:8.8.8.8"] ∧
    isDottedQuadSpec (str "::ffff:8.8.8.8") = false := by
  refine ⟨by rfl, by decide⟩

/-- Witness for C4: the theorem applied at concrete resolver outputs. -/
theorem wg_claim_C4_witness :
    goIsIPv4 (str "8.8.8.8") = true ∧ goIsIPv4 (str "9.9.9.9") = true :=
  ⟨wg_claim_C4.2.1 (str "8.8.8.8") (by decide),
   (wg_claim_C4.1 (str "9.9.9.9\nfoo")).2 (str "9.9.9.9") (by decide)⟩

/-- Claim C5: in substitution mode, every template line whose trimmed form
starts with the literal substring `AllowedIPs` (including lines such as
`AllowedIPsX = 1.2.3.4`) is emitted as `AllowedIPs = <value>`, for every
index, not only the first match. -/
theorem wg_claim_C5 (value : Str) (wg : List Str) (i : Nat) (hi : i < wg.length)
    (hp : hasPrefixGo (trimSpace (wg.getD i [])) (str "AllowedIPs") = true) :
    (substLines value wg).getD i [] = str "AllowedIPs = " ++ value := by
  rw [substLines_getD]
  unfold substLine
  rw [if_pos hp]

/-- Witness for C5: line 1 (`  AllowedIPsX = 1.2.3.4`) of a two-line
template is replaced although it is not the first line and the prefix match
is not token-delimited. -/
theorem wg_claim_C5_witness :
    (substLines (str "10.0.0.1")
      [str "x = 1", str "  AllowedIPsX = 1.2.3.4"]).getD 1 [] =
      str "AllowedIPs = " ++ str "10.0.0.1" :=
  wg_claim_C5 (str "10.0.0.1") [str "x = 1", str "  AllowedIPsX = 1.2.3.4"] 1
    (by decide) (by decide)

/-- Claim C6: in substitution mode, every template line whose trimmed form
does not start with `AllowedIPs` is emitted exactly as its original
untrimmed text. -/
theorem wg_claim_C6 (value : Str) (wg : List Str) (i : Nat) (hi : i < wg.length)
    (hp : hasPrefixGo (trimSpace (wg.getD i [])) (str "AllowedIPs") = false) :
    (substLines value wg).getD i [] = wg.getD i [] := by
  rw [substLines_getD]
  unfold substLine
  rw [if_neg (by rw [hp]; simp)]

/-- Witness for C6: a non-matching line passes through byte-for-byte. -/
theorem wg_claim_C6_witness :
    (substLines (str "10.0.0.1") [str "  Address = 10.0.0.2/24  "]).getD 0 [] =
      str "  Address = 10.0.0.2/24  " :=
  wg_claim_C6 (str "10.0.0.1") [str "  Address = 10.0.0.2/24  "] 0
    (by decide) (by decide)

/-- Claim C7: if some non-comment, non-blank line is classified Invalid, the
scan aborts with a fatal error citing a 1-based line number `n` and the
trimmed text of that line, where line `n` is indeed an invalid entry; the
run exits with code 1 and writes nothing to standard output, in list mode as
well as in substitution mode. -/
theorem wg_claim_C7 (dig : Str → Except Str Str) (lines : List Str)
    (h : ∃ k, k < lines.length ∧ isEntryLine (lines.getD k []) = true ∧
      classify (trimSpace (lines.getD k [])) = Classification.invalid) :
    ∃ n, 1 ≤ n ∧ n ≤ lines.length ∧
      isEntryLine (lines.getD (n - 1) []) = true ∧
      classify (trimSpace (lines.getD (n - 1) [])) = Classification.invalid ∧
      (scanLines dig lines 0).2 = .error (n, trimSpace (lines.getD (n - 1) [])) ∧
      (runList dig lines).exitCode = 1 ∧ (runList dig lines).stdout = [] ∧
      ∀ wg, (runSubst dig lines wg).exitCode = 1 ∧
        (runSubst dig lines wg).stdout = [] := by
  obtain ⟨j, hj, hje, hjc, hjs⟩ := scan_abort dig lines 0 h
  rcases hsc : scanLines dig lines 0 with ⟨ws, r⟩
  rw [hsc] at hjs
  have hr : r = .error (0 + j + 1, trimSpace (lines.getD j [])) := hjs
  refine ⟨j + 1, by omega, by omega, hje, hjc, ?_, ?_, ?_, fun wg => ⟨?_, ?_⟩⟩
  · rw [hr]
    simp
  · unfold runList
    rw [hsc, hr]
  · unfold runList
    rw [hsc, hr]
  · unfold runSubst
    rw [hsc, hr]
  · unfold runSubst
    rw [hsc, hr]

/-- Witness for C7: the file `1.2.3.4`, `!!!` has an invalid entry on line 2,
and the run aborts citing it with no standard output. -/
theorem wg_claim_C7_witness :
    ∃ n, 1 ≤ n ∧ n ≤ ([str "1.2.3.4", str "!!!"] : List Str).length ∧
      isEntryLine (([str "1.2.3.4", str "!!!"] : List Str).getD (n - 1) []) = true ∧
      classify (trimSpace (([str "1.2.3.4", str "!!!"] : List Str).getD (n - 1) [])) =
        Classification.invalid ∧
      (scanLines digFails [str "1.2.3.4", str "!!!"] 0).2 =
        .error (n, trimSpace (([str "1.2.3.4", str "!!!"] : List Str).getD (n - 1) [])) ∧
      (runList digFails [str "1.2.3.4", str "!!!"]).exitCode = 1 ∧
      (runList digFails [str "1.2.3.4", str "!!!"]).stdout = [] ∧
      ∀ wg, (runSubst digFails [str "1.2.3.4", str "!!!"] wg).exitCode = 1 ∧
        (runSubst digFails [str "1.2.3.4", str "!!!"] wg).stdout = [] :=
  wg_claim_C7 digFails [str "1.2.3.4", str "!!!"]
    ⟨1, by decide, by decide, by decide⟩

/-- Claim C8: for a DomainName entry, a resolver execution failure is
non-fatal: a warning carrying the 1-based line number, the hostname, and the
underlying error is emitted and the scan continues with the remaining lines,
the failed hostname contributing no addresses; a successful resolution with
zero address lines likewise emits a warning with line number and hostname
and continues with no contribution. -/
theorem wg_claim_C8 (dig : Str → Except Str Str) (raw : Str) (rest : List Str)
    (n : Nat) (he : isEntryLine raw = true)
    (hd : classify (trimSpace raw) = Classification.domainName) :
    (∀ e, dig (trimSpace raw) = .error e →
      scanLines dig (raw :: rest) n =
        (Warn.resolveFailed (n + 1) (trimSpace raw) e ::
            (scanLines dig rest (n + 1)).1,
         (scanLines dig rest (n + 1)).2)) ∧
    (∀ output, dig (trimSpace raw) = .ok output → resolveOutputIPs output = [] →
      scanLines dig (raw :: rest) n =
        (Warn.noResults (n + 1) (trimSpace raw) ::
            (scanLines dig rest (n + 1)).1,
         (scanLines dig rest (n + 1)).2)) := by
  obtain ⟨h1, h2⟩ := isEntryLine_true he
  constructor
  · intro e hde
    rw [scanLines, if_neg h1, if_neg (by rw [h2]; simp), hd]
    simp only
    rw [resolveHostname, hde]
  · intro output hdo hro
    rw [scanLines, if_neg h1, if_neg (by rw [h2]; simp), hd]
    simp only
    rw [resolveHostname, hdo]
    simp [hro]

/-- Witness for C8: both failure modes at a concrete hostname. -/
theorem wg_claim_C8_witness :
    scanLines digFails [str "example.com"] 0 =
      ([Warn.resolveFailed 1 (str "example.com") (str "exec failure")], .ok []) ∧
    scanLines digCNAMEOnly [str "example.com"] 0 =
      ([Warn.noResults 1 (str "example.com")], .ok []) :=
  ⟨(wg_claim_C8 digFails (str "example.com") [] 0 (by decide) (by decide)).1
      (str "exec failure") rfl,
   (wg_claim_C8 digCNAMEOnly (str "example.com") [] 0 (by decide) (by decide)).2
      (str "cname.example.com.") rfl (by rfl)⟩

/-- Claim C9: in list mode, on a successful scan the exit code is 0; the
joined value followed by a newline is printed exactly when the deduplicated
collection is nonempty, and nothing at all is printed when it is empty; in
particular a file of comments and blank lines yields no output and exit 0
for every resolver. -/
theorem wg_claim_C9 :
    (∀ (dig : Str → Except Str Str) (lines : List Str) (ws : List Warn)
      (ips : List Str),
      scanLines dig lines 0 = (ws, .ok ips) →
      (runList dig lines).exitCode = 0 ∧
      (sortStrings (removeDuplicates ips) ≠ [] →
        (runList dig lines).stdout =
          joinWith ',' (sortStrings (removeDuplicates ips)) ++ ['\n']) ∧
      (sortStrings (removeDuplicates ips) = [] →
        (runList dig lines).stdout = [])) ∧
    (∀ dig : Str → Except Str Str,
      runList dig [str "# comment line", str "", str "   "] = ⟨0, [], []⟩) := by
  constructor
  · intro dig lines ws ips h
    unfold runList
    rw [h]
    refine ⟨rfl, fun hne => ?_, fun heq => ?_⟩
    · have hpos : 0 < (sortStrings (removeDuplicates ips)).length :=
        List.length_pos.mpr hne
      simp [hpos]
    · simp [heq]
  · intro dig
    rfl

/-- Witness for C9: a single literal produces the joined value plus newline
and exit code 0. -/
theorem wg_claim_C9_witness :
    (runList digFails [str "10.0.0.1"]).exitCode = 0 ∧
    (runList digFails [str "10.0.0.1"]).stdout =
      joinWith ',' (sortStrings (removeDuplicates [str "10.0.0.1"])) ++ ['\n'] :=
  have h := wg_claim_C9.1 digFails [str "10.0.0.1"] [] [str "10.0.0.1"] rfl
  ⟨h.1, h.2.1 (by decide)⟩

/-- Claim C10: in substitution mode with an empty aggregated collection, the
substitution is not suppressed: the output is still the full substituted
template, and every line whose trimmed form starts with `AllowedIPs` is
emitted as `AllowedIPs = ` followed by the empty joined string (a trailing
space, no value). -/
theorem wg_claim_C10 (dig : Str → Except Str Str) (lines wg : List Str)
    (ws : List Warn) (h : scanLines dig lines 0 = (ws, .ok [])) :
    (runSubst dig lines wg).stdout = substOutput [] wg ∧
    allowedIPsValue [] = [] ∧
    ∀ i : Nat, i < wg.length →
      hasPrefixGo (trimSpace (wg.getD i [])) (str "AllowedIPs") = true →
      (substLines [] wg).getD i [] = str "AllowedIPs = " := by
  refine ⟨?_, rfl, fun i hi hp => ?_⟩
  · unfold runSubst
    rw [h]
    rfl
  · rw [substLines_getD]
    unfold substLine
    rw [if_pos hp, List.append_nil]

/-- Witness for C10: an empty allow-list and a one-line template whose line
is replaced by `AllowedIPs = ` (with trailing space). -/
theorem wg_claim_C10_witness :
    (runSubst digFails [] [str "AllowedIPs = 1.2.3.4/32"]).stdout =
      substOutput [] [str "AllowedIPs = 1.2.3.4/32"] ∧
    (substLines [] [str "AllowedIPs = 1.2.3.4/32"]).getD 0 [] =
      str "AllowedIPs = " :=
  have h := wg_claim_C10 digFails [] [str "AllowedIPs = 1.2.3.4/32"] [] rfl
  ⟨h.1, h.2.2 0 (by decide) (by decide)⟩
